import Mathlib

/-!
A verification development for the yes/no speaking trainer
(`src/src/App.jsx`), a single-page React application.  The development
shallowly embeds:

* the transcript classifier `parseYesNo` (App.jsx lines 57-69);
* the session helpers (`buildSession`, the topic-filtered pool and the
  `viewItems` / `current` memos, App.jsx lines 100-117 and 245-254);
* the practice-session controller as an event-step machine over an
  explicit application state (`ask`, `reveal`, `fastReveal`, `goNext`,
  the `rec.onresult` handler and the practice timer, App.jsx lines
  131-169 and 259-336);
* the JSON export / import boundary (`exportItems` line 345-351 and the
  `ImportButton` `onImport` handler line 505), together with a model of
  the host `JSON.parse` / `JSON.stringify(·, null, 2)` pair restricted
  to integer numerals (the data model's numbers are integer ids).

Conventions of the embedding:

* JavaScript strings are modelled as `String` / `List Char`;
  `toLowerCase` and `trim` are modelled for the ASCII range (every
  phrase in the classifier's two lists is ASCII).
* Timer handles from `setTimeout` are modelled as increasing `Nat`
  tokens; the set of scheduled-and-not-yet-cancelled callbacks is kept
  explicitly, so "at most one timer is pending" is a proved invariant,
  not a modelling assumption.
* React's per-render closures matter in this component and are
  modelled: the `rec.onresult` handler is installed once (its
  `useEffect` dependencies `[recAvailable, targetLang]` never change,
  `setTargetLang` has no caller), so the `fastReveal` it calls captured
  the `phase` value of the mount render, `'idle'`.  Likewise the
  `() => reveal()` callback of the practice timer captures the values
  of the render that armed it; those captured values are carried in a
  `Snap` alongside the timer token.
* Randomness (`Math.random`) enters as adversarial event data: the
  session shuffle arrives as an arbitrary permutation, the open-pool
  draw as an arbitrary stream of indices.
-/

namespace YesNoTrainer

/-! ## Transcript classifier (App.jsx lines 56-69) -/

/-- Result of `parseYesNo`: the JS function returns `"yes"`, `"no"` or
`null`; the `null` outcome is `Option.none` of this type. -/
inductive YN
  | yes
  | no
deriving DecidableEq, Repr

/-- The affirmative phrase list `yesWords` (App.jsx line 60). -/
def yesWords : List String :=
  ["yes", "yeah", "yep", "yup", "sure", "of course", "i do", "i did",
   "i am", "i will", "i can", "it is"]

/-- The negative phrase list `noWords` (App.jsx line 63). -/
def noWords : List String :=
  ["no", "nope", "nah", "not", "i don't", "i did not", "i didn't",
   "i am not", "i won't", "i will not", "i can't", "cannot", "it isn't",
   "it is not"]

/-- ASCII whitespace, the characters `String.prototype.trim` removes in
the ASCII range (the embedding models ASCII transcripts). -/
def isWsChar (c : Char) : Bool := c = ' ' || c = '\t' || c = '\n' || c = '\r'

/-- `String.prototype.trim` on a character list: drop whitespace from
both ends. -/
def trimChars (l : List Char) : List Char :=
  ((l.dropWhile isWsChar).reverse.dropWhile isWsChar).reverse

/-- `t.includes(pat)`: `pat` occurs contiguously inside `t`. -/
def hasSub (t pat : List Char) : Bool := decide (pat <:+: t)

/-- One phrase test of `parseYesNo` (App.jsx lines 66-67):
`t.startsWith(w) || t.includes(` + `" ${w} "` + `) || t === w`. -/
def phraseMatch (t w : List Char) : Bool :=
  w.isPrefixOf t || hasSub t (' ' :: (w ++ [' '])) || t == w

/-- `transcript.toLowerCase().trim()` (App.jsx line 59), on the ASCII
range. -/
def normChars (s : String) : List Char := trimChars (s.toList.map Char.toLower)

/-- The classifier `parseYesNo` (App.jsx lines 57-69).  The argument is
`Option String` because the JS function may receive `null`/`undefined`;
`!transcript` is also true for the empty string. -/
def parseYesNo (transcript : Option String) : Option YN :=
  match transcript with
  | none => none
  | some s =>
    if s = "" then none
    else
      let t := normChars s
      if yesWords.any (fun w => phraseMatch t w.toList) then some YN.yes
      else if noWords.any (fun w => phraseMatch t w.toList) then some YN.no
      else none

example : parseYesNo (some "Yes, I can.") = some YN.yes := by decide
example : parseYesNo (some "maybe") = none := by decide
example : parseYesNo (some "yesterday") = some YN.yes := by decide
example : parseYesNo (some "yes not really") = some YN.yes := by decide

/-! ## Question items and the topic-filtered pool -/

/-- A question item (App.jsx `defaultItems`, lines 4-10): an id, a
topic, the question text and the two sample answers. -/
structure Item where
  id : Nat
  topic : String
  question : String
  yesSample : String
  noSample : String
deriving DecidableEq, Repr

/-- `it.topic || "Untitled"` (App.jsx lines 101, 106, 246): an absent
topic is modelled as the empty string, which is falsy in JS. -/
def topicOf (it : Item) : String := if it.topic = "" then "Untitled" else it.topic

/-- The topic-filtered pool (App.jsx lines 106 and 246):
all items for `"All"`, otherwise the items whose topic matches. -/
def poolOf (selectedTopic : String) (items : List Item) : List Item :=
  if selectedTopic = "All" then items
  else items.filter (fun it => topicOf it = selectedTopic)

/-- The `viewItems` memo (App.jsx lines 105-108): the pool, restricted
to the session's ids when a session object exists (in JS an empty
session array is still truthy, hence `Option` and not emptiness). -/
def viewItemsOf (items : List Item) (selectedTopic : String)
    (sessionSet : Option (List Nat)) : List Item :=
  let pool := poolOf selectedTopic items
  match sessionSet with
  | some ids => pool.filter (fun it => ids.contains it.id)
  | none => pool

/-- The `current` memo (App.jsx lines 111-117).  With a nonempty
session, the item is found by id `sessionSet[sessionCursor] ?? sessionSet[0]`
with fallbacks `viewItems[0]`, `items[0]`; otherwise
`viewItems[currentIndex] || viewItems[0] || items[0]`.  `undefined` is
`Option.none`. -/
def currentOf (items : List Item) (selectedTopic : String)
    (sessionSet : Option (List Nat)) (sessionCursor currentIndex : Nat) :
    Option Item :=
  let view := viewItemsOf items selectedTopic sessionSet
  let openPool := ((view.get? currentIndex).or view.head?).or items.head?
  match sessionSet with
  | some ids =>
    if ids.length ≠ 0 then
      let id := (ids.get? sessionCursor).getD (ids.headD 0)
      ((items.find? (fun it => it.id = id)).or view.head?).or items.head?
    else openPool
  | none => openPool

/-- `Array.from(new Set(pool.map(it => it.id)))` (App.jsx line 247): the
ids deduplicated, keeping the first occurrence of each (a JS `Set`
iterates in insertion order). -/
def dedupFirst (l : List Nat) : List Nat :=
  l.foldl (fun acc x => if x ∈ acc then acc else acc ++ [x]) []

/-- The distinct ids of a pool, in first-occurrence order
(App.jsx line 247). -/
def uniqueIds (pool : List Item) : List Nat := dedupFirst (pool.map Item.id)

/-- `shuffled.slice(0, Math.min(count, shuffled.length))`
(App.jsx line 249): the drawn session ids. -/
def sessionDraw (shuffled : List Nat) (count : Nat) : List Nat :=
  shuffled.take (min count shuffled.length)

theorem dedupFirst_fold_nodup :
    ∀ (l : List Nat) (acc : List Nat), acc.Nodup →
      (l.foldl (fun acc x => if x ∈ acc then acc else acc ++ [x]) acc).Nodup := by
  intro l
  induction l with
  | nil => exact fun acc h => h
  | cons x xs ih =>
    intro acc hacc
    simp only [List.foldl_cons]
    by_cases hx : x ∈ acc
    · simpa [hx] using ih acc hacc
    · refine ih _ ?_
      simp only [hx, if_false]
      rw [← List.concat_eq_append]
      exact List.Nodup.concat hx hacc

theorem dedupFirst_fold_mem :
    ∀ (l : List Nat) (acc : List Nat) (a : Nat),
      (a ∈ l.foldl (fun acc x => if x ∈ acc then acc else acc ++ [x]) acc
        ↔ a ∈ acc ∨ a ∈ l) := by
  intro l
  induction l with
  | nil => simp
  | cons x xs ih =>
    intro acc a
    simp only [List.foldl_cons, List.mem_cons]
    by_cases hx : x ∈ acc
    · rw [if_pos hx, ih]
      constructor
      · tauto
      · rintro (h | h | h)
        · tauto
        · subst h; tauto
        · tauto
    · rw [if_neg hx, ih]
      simp only [List.mem_append, List.mem_singleton]
      tauto

theorem dedupFirst_nodup (l : List Nat) : (dedupFirst l).Nodup :=
  dedupFirst_fold_nodup l [] List.nodup_nil

theorem mem_dedupFirst (l : List Nat) (a : Nat) : a ∈ dedupFirst l ↔ a ∈ l := by
  rw [dedupFirst, dedupFirst_fold_mem]
  simp

/-- `dedupFirst` and `List.dedup` have the same length: both count the
distinct elements. -/
theorem dedupFirst_toFinset (l : List Nat) : (dedupFirst l).toFinset = l.toFinset := by
  ext a
  simp [List.mem_toFinset, mem_dedupFirst]

theorem dedupFirst_length (l : List Nat) : (dedupFirst l).length = l.toFinset.card := by
  rw [← List.toFinset_card_of_nodup (dedupFirst_nodup l), dedupFirst_toFinset]

/-! ## The practice-session controller as an event-step machine

The component's handlers run single-threaded; every state change is
triggered by a user action, a speech-synthesis `onend`, a recognition
`onresult`/`onend`, a timer expiry, or the auto-advance effect.  The
machine below has one event per such trigger.  JavaScript closures are
per-render: a callback reads the values of the render that created it,
so each stored callback carries a `Snap` of those values. -/

/-- The phase state `'idle' | 'practice' | 'reveal'` (App.jsx line 87). -/
inductive Phase
  | idle
  | practice
  | reveal
deriving DecidableEq, Repr

/-- The Answer Completion Tracker `needed` (App.jsx line 85): in the
source `{ yes: true, no: true }`; a field is `false` once that polarity
was answered. -/
structure Needed where
  yes : Bool
  no : Bool
deriving DecidableEq, Repr

/-- The render-time values captured by the closures `ask()` creates
(the timer callback `() => reveal()` and the TTS `onend` callback):
exactly the component values `reveal`/`goNext` read. -/
structure Snap where
  useTTS : Bool
  random : Bool
  selectedTopic : String
  items : List Item
  sessionSet : Option (List Nat)
  sessionCursor : Nat
  currentIndex : Nat
deriving DecidableEq, Repr

/-- The component state, plus the explicitly modelled callback queue:
`pendingTimers` is the set of `setTimeout(() => reveal(), …)` callbacks
scheduled and not yet cancelled or fired (each with its captured
`Snap`), `timerRef` is `practiceTimerRef.current` (the last handle
stored), `nextTimer` numbers handles increasingly.  `pendingQuestionTts`
/ `pendingRevealTts` are the utterance `onend` callbacks awaiting the
synthesiser, `recStartPending` the 200 ms `startRecognition` delay, and
`pendingAsk` the `setTimeout(() => ask(), 0)` scheduled by the
auto-advance effect (App.jsx lines 236-241). -/
structure AppState where
  items : List Item
  currentIndex : Nat
  listening : Bool
  recognized : String
  random : Bool
  useTTS : Bool
  needed : Needed
  practiceSec : Nat
  phase : Phase
  selectedTopic : String
  sessionSet : Option (List Nat)
  sessionCursor : Nat
  autoAdvance : Bool
  timerRef : Option Nat
  pendingTimers : List (Nat × Snap)
  nextTimer : Nat
  pendingQuestionTts : Option Snap
  recStartPending : Bool
  pendingRevealTts : Option Snap
  pendingAsk : Option Snap
deriving DecidableEq, Repr

/-- The built-in default item list (App.jsx lines 4-10), the initial
`items` state (`loadFromLocalStorage` falls back to it). -/
def defaultItems : List Item :=
  [⟨1, "Daily Life", "Do you like coffee?", "Yes, I do.", "No, I don't."⟩,
   ⟨2, "General Knowledge", "Is Tokyo the capital of Japan?", "Yes, it is.", "No, it isn't."⟩,
   ⟨3, "Study", "Did you study English yesterday?", "Yes, I did.", "No, I didn't."⟩,
   ⟨4, "Plans", "Will you go out this weekend?", "Yes, I will.", "No, I won't."⟩,
   ⟨5, "Abilities", "Can you swim?", "Yes, I can.", "No, I can't."⟩]

/-- The snapshot a render of the component closes over. -/
def snapOf (s : AppState) : Snap :=
  ⟨s.useTTS, s.random, s.selectedTopic, s.items, s.sessionSet,
   s.sessionCursor, s.currentIndex⟩

/-- `current` as a render with snapshot `sn` sees it. -/
def currentOfSnap (sn : Snap) : Option Item :=
  currentOf sn.items sn.selectedTopic sn.sessionSet sn.sessionCursor sn.currentIndex

/-- `current` over the live state. -/
def currentOfState (s : AppState) : Option Item :=
  currentOf s.items s.selectedTopic s.sessionSet s.sessionCursor s.currentIndex

/-- The id the pending timer callback's `reveal` would reveal: the
current question of the render that armed it. -/
def armedQuestionId (cb : Nat × Snap) : Option Nat :=
  (currentOfSnap cb.2).map Item.id

/-- `resetNeeded()` (App.jsx line 265). -/
def resetNeededFn (s : AppState) : AppState :=
  { s with needed := ⟨true, true⟩, recognized := "" }

/-- `startRecognition()` (App.jsx lines 260-263), successful start: the
stop/start pair leaves `listening` true.  The failure path (permission
denied) would leave it false; the claims quantify over runs where the
recogniser starts. -/
def startRecognitionFn (s : AppState) : AppState := { s with listening := true }

/-- `clearTimeout(practiceTimerRef.current)`: the callback whose handle
the ref holds is descheduled. -/
def clearRefTimer (s : AppState) : AppState :=
  { s with pendingTimers := s.pendingTimers.filter (fun cb => some cb.1 ≠ s.timerRef) }

/-- `clearTimeout(practiceTimerRef.current); practiceTimerRef.current =
setTimeout(() => reveal(), practiceSec * 1000)` (App.jsx lines 274-275
and 279-280): cancel the handle in the ref, then schedule a fresh
callback carrying the arming render's snapshot. -/
def armTimerFn (snap : Snap) (s : AppState) : AppState :=
  let s1 := clearRefTimer s
  { s1 with pendingTimers := s1.pendingTimers ++ [(s.nextTimer, snap)],
            timerRef := some s.nextTimer,
            nextTimer := s.nextTimer + 1 }

/-- `viewItems[idx]?.id === currentId` (App.jsx line 312): strict JS
equality, false when either side is `undefined`/`null`. -/
def jsEqIdOpt (o : Option Item) (c : Option Nat) : Bool :=
  match o, c with
  | some it, some cid => it.id == cid
  | _, _ => false

/-- The random retry loop of `goNext` (App.jsx lines 310-315): while
the drawn index hits the current item and fewer than 10 retries
happened (`guard < 10`, here `fuel = 10 - guard` counts down), draw
again.  `draws` is the adversarial stream of
`Math.floor(Math.random() * len)` values (reduced mod `len`). -/
def retryPick (draws : List Nat) (len : Nat) (view : List Item)
    (currentId : Option Nat) : Nat → Nat → Nat → Nat
  | 0, _guard, idx => idx
  | fuel + 1, guard, idx =>
    if jsEqIdOpt (view.get? idx) currentId then
      retryPick draws len view currentId fuel (guard + 1) ((draws.getD (guard + 1) 0) % len)
    else idx

/-- The random index choice of `goNext` (App.jsx lines 308-316). -/
def pickIdx (draws : List Nat) (view : List Item) (currentId : Option Nat) : Nat :=
  let len := view.length
  let idx0 := (draws.getD 0 0) % len
  if len > 1 then retryPick draws len view currentId 10 0 idx0 else idx0

/-- The open-pool part of `goNext` (App.jsx lines 305-323), reading the
captured render values in `snap` (`viewItems`, `random`, `current`) and
writing the live state; the sequential branch's functional update
`setCurrentIndex(i => (i + 1) % viewItems.length)` reads the live
index but the captured length. -/
def goNextOpen (snap : Snap) (draws : List Nat) (s : AppState) : AppState :=
  let view := viewItemsOf snap.items snap.selectedTopic snap.sessionSet
  if view.length = 0 then s
  else
    let s1 :=
      if snap.random then
        { s with currentIndex := pickIdx draws view ((currentOfSnap snap).map Item.id) }
      else
        { s with currentIndex := (s.currentIndex + 1) % view.length }
    { (resetNeededFn s1) with autoAdvance := true }

/-- `goNext()` (App.jsx lines 290-323) with the captured render values
in `snap`.  An invocation from the live render passes `snapOf s`. -/
def goNextFn (snap : Snap) (draws : List Nat) (s : AppState) : AppState :=
  match snap.sessionSet with
  | some ids =>
    if ids.length ≠ 0 then
      if snap.sessionCursor + 1 < ids.length then
        { (resetNeededFn { s with sessionCursor := snap.sessionCursor + 1 }) with
            autoAdvance := true }
      else
        { s with phase := Phase.idle, sessionSet := none }
    else goNextOpen snap draws s
  | none => goNextOpen snap draws s

/-- `reveal()` (App.jsx lines 325-336): set phase to `reveal`, stop the
recogniser (its `onend` clears `listening`), then speak the answer (its
`onend` is `goNext` with the same captured render) or call `goNext`
directly.  `speak` cancels any queued utterance; a superseded
utterance's callback is modelled as suppressed. -/
def revealFn (snap : Snap) (draws : List Nat) (s : AppState) : AppState :=
  let s1 := { s with phase := Phase.reveal, listening := false }
  if snap.useTTS then
    { s1 with pendingRevealTts := some snap, pendingQuestionTts := none }
  else goNextFn snap draws s1

/-- `fastReveal()` (App.jsx lines 284-288) as the closure that calls it
sees it: `capturedPhase` is the `phase` value of the render that
created the closure, `capturedSnap` its other values.  When that phase
is not `'practice'` the function returns without doing anything. -/
def fastRevealFn (capturedPhase : Phase) (capturedSnap : Snap) (draws : List Nat)
    (s : AppState) : AppState :=
  if capturedPhase ≠ Phase.practice then s
  else revealFn capturedSnap draws (clearRefTimer s)

/-- The `rec.onresult` handler (App.jsx lines 144-163): record the
transcript; on a final result classify it, flip the matching tracker
flag, and call `fastReveal` when both flags just became false.
`capturedPhase`/`capturedSnap` are the values of the render whose
`fastReveal` the handler closed over when the effect installed it. -/
def onResultFn (capturedPhase : Phase) (capturedSnap : Snap) (txt : String)
    (final : Bool) (s : AppState) : AppState :=
  let s1 := { s with recognized := txt }
  if final then
    match parseYesNo (some txt) with
    | some yn =>
      let next : Needed :=
        match yn with
        | YN.yes => { s1.needed with yes := false }
        | YN.no => { s1.needed with no := false }
      let s2 := { s1 with needed := next }
      if !next.yes && !next.no then fastRevealFn capturedPhase capturedSnap [] s2
      else s2
    | none => s1
  else s1

/-- `ask()` (App.jsx lines 267-282) with the captured render values in
`snap` (a click passes the live state's snapshot, the auto-advance tick
the snapshot it was scheduled with): reset the tracker, enter
`practice`; with TTS, queue the question utterance whose `onend` will
start recognition and arm the timer; without TTS, start recognition and
arm the timer at once.  `speak` cancels any queued utterance
(superseded callback suppressed, as in `revealFn`). -/
def askFn (snap : Snap) (s : AppState) : AppState :=
  let s1 := { (resetNeededFn s) with phase := Phase.practice }
  if snap.useTTS then
    { s1 with pendingQuestionTts := some snap, pendingRevealTts := none }
  else armTimerFn snap (startRecognitionFn s1)

/-- `buildSession(count)` (App.jsx lines 245-254): deduplicate the
pool's ids, shuffle (`unique.sort(() => Math.random() - 0.5)` produces
some permutation — the adversarial `shuffled` is used when it is one),
draw the first `min count length`, reset cursor and tracker, and flag
the auto-advance effect. -/
def buildSessionFn (shuffled : List Nat) (count : Nat) (s : AppState) : AppState :=
  let pool := poolOf s.selectedTopic s.items
  let unique := uniqueIds pool
  let shuf := if shuffled.isPerm unique then shuffled else unique
  let ids := sessionDraw shuf count
  { (resetNeededFn { s with sessionSet := some ids, sessionCursor := 0 }) with
      autoAdvance := true }

/-- The triggers that mutate the controller state.  `timerFire` and the
`goNext`-running events carry the adversarial random stream for the
open-pool draw; `startSession` carries the adversarial shuffle.  The
item-editing, import and settings handlers that no claim touches are
outside the alphabet. -/
inductive Event
  | askClick
  | askTick
  | ttsQuestionEnd
  | recStart
  | result (txt : String) (final : Bool)
  | recEnd
  | timerFire (k : Nat) (draws : List Nat)
  | ttsRevealEnd (draws : List Nat)
  | toggleTTS (b : Bool)
  | toggleRandom (b : Bool)
  | topicChange (t : String)
  | startSession (shuffled : List Nat)
deriving DecidableEq, Repr

/-- The initial state: default items, `phase = 'idle'`, no session, no
pending callbacks (App.jsx lines 74-104). -/
def initState : AppState :=
  { items := defaultItems, currentIndex := 0, listening := false,
    recognized := "", random := true, useTTS := true,
    needed := ⟨true, true⟩, practiceSec := 8, phase := Phase.idle,
    selectedTopic := "All", sessionSet := none, sessionCursor := 0,
    autoAdvance := false, timerRef := none, pendingTimers := [],
    nextTimer := 0, pendingQuestionTts := none, recStartPending := false,
    pendingRevealTts := none, pendingAsk := none }

/-- The snapshot of the mount render.  The recognition effect (App.jsx
lines 136-169) has dependencies `[recAvailable, targetLang]` that never
change (`setTargetLang` has no caller), so `rec.onresult` keeps the
`fastReveal` of this render forever; its captured `phase` is `'idle'`. -/
def mountSnap : Snap := snapOf initState

/-- One event's handler, without the auto-advance effect. -/
def rawStep (s : AppState) (e : Event) : AppState :=
  match e with
  | Event.askClick =>
    -- the ask button has `disabled={!current}` and the latest render's closure
    if (currentOfState s).isSome then askFn (snapOf s) s else s
  | Event.askTick =>
    match s.pendingAsk with
    | some snap => askFn snap { s with pendingAsk := none }
    | none => s
  | Event.ttsQuestionEnd =>
    -- the question utterance's onend (App.jsx lines 272-276): schedule the
    -- 200 ms recognition start, then cancel-and-arm the practice timer
    match s.pendingQuestionTts with
    | some snap => armTimerFn snap { s with pendingQuestionTts := none, recStartPending := true }
    | none => s
  | Event.recStart =>
    if s.recStartPending then startRecognitionFn { s with recStartPending := false } else s
  | Event.result txt final =>
    if s.listening then onResultFn Phase.idle mountSnap txt final s else s
  | Event.recEnd =>
    if s.listening then { s with listening := false } else s
  | Event.timerFire k draws =>
    match s.pendingTimers.find? (fun cb => cb.1 = k) with
    | some cb => revealFn cb.2 draws
        { s with pendingTimers := s.pendingTimers.filter (fun cb2 => cb2.1 ≠ k) }
    | none => s
  | Event.ttsRevealEnd draws =>
    match s.pendingRevealTts with
    | some snap => goNextFn snap draws { s with pendingRevealTts := none }
    | none => s
  | Event.toggleTTS b => { s with useTTS := b }
  | Event.toggleRandom b => { s with random := b }
  | Event.topicChange t =>
    -- the topic select's onChange (App.jsx line 390)
    { s with selectedTopic := t, sessionSet := none, sessionCursor := 0, currentIndex := 0 }
  | Event.startSession shuffled =>
    -- the session button is rendered only when `!sessionSet` (App.jsx line 395)
    if s.sessionSet = none then buildSessionFn shuffled 10 s else s

/-- One event, followed by the auto-advance effect (App.jsx lines
236-241): the effect runs when its dependencies `[sessionCursor,
currentIndex]` changed in the render the event produced; if the flag is
set it consumes it and schedules `setTimeout(() => ask(), 0)` with that
render's closure. -/
def step (s : AppState) (e : Event) : AppState :=
  let s1 := rawStep s e
  if (s1.sessionCursor ≠ s.sessionCursor ∨ s1.currentIndex ≠ s.currentIndex)
      ∧ s1.autoAdvance = true then
    { s1 with autoAdvance := false, pendingAsk := some (snapOf s1) }
  else s1

/-- A run of the application from mount. -/
def run (evs : List Event) : AppState := evs.foldl step initState

/-! ## Claims about the transcript classifier -/

/-- Claim C3: for every transcript whose normalized form is matched by
some affirmative phrase and also by some negative phrase, `parseYesNo`
returns the affirmative result: the affirmative list is checked first,
so affirmative wins the tie. -/
theorem parseYesNo_affirmative_precedence (s : String)
    (hy : yesWords.any (fun w => phraseMatch (normChars s) w.toList) = true)
    (hn : noWords.any (fun w => phraseMatch (normChars s) w.toList) = true) :
    parseYesNo (some s) = some YN.yes := by
  have hs : s ≠ "" := by
    intro h
    subst h
    exact absurd hy (by decide)
  have hkeep := hn
  simp only [parseYesNo, if_neg hs, hy, if_true]

/-- Witness for C3: the transcript `"yes not really"` is matched by the
affirmative phrase `"yes"` and the negative phrase `"not"`, and is
classified affirmative. -/
theorem parseYesNo_affirmative_precedence_witness :
    (yesWords.any (fun w => phraseMatch (normChars "yes not really") w.toList) = true)
    ∧ (noWords.any (fun w => phraseMatch (normChars "yes not really") w.toList) = true)
    ∧ parseYesNo (some "yes not really") = some YN.yes :=
  ⟨by decide, by decide,
   parseYesNo_affirmative_precedence "yes not really" (by decide) (by decide)⟩

/-- Counterexample for claim C4: the transcript `"yesterday"` is a
single word (its normalized form has no space) and equals no
affirmative phrase, yet it is classified affirmative — the phrase
`"yes"` matches as a prefix inside the unrelated word `"yesterday"`,
so the matching rule is not whole-word. -/
theorem phraseMatch_not_whole_word :
    parseYesNo (some "yesterday") = some YN.yes
    ∧ (normChars "yesterday").all (fun c => c ≠ ' ') = true
    ∧ yesWords.all (fun w => normChars "yesterday" ≠ w.toList) = true := by
  refine ⟨by decide, by decide, by decide⟩

/-- Claim C4 (amended): a phrase matches exactly when the lowercased,
trimmed transcript equals it, starts with it, or contains it surrounded
by spaces; the whole-word parenthetical is dropped, since the
starts-with arm lets a phrase match as the prefix of a longer unrelated
word. -/
theorem phraseMatch_iff (s : String) (w : List Char) :
    phraseMatch (normChars s) w = true ↔
      (normChars s = w ∨ w <+: normChars s
        ∨ (' ' :: (w ++ [' '])) <:+: normChars s) := by
  unfold phraseMatch hasSub
  simp only [Bool.or_eq_true, List.isPrefixOf_iff_prefix, decide_eq_true_eq,
    beq_iff_eq]
  tauto

/-- Claim C8: the classifier is a pure function of its argument (its
embedding is a Lean function), and a missing transcript, the empty
transcript and the unmatched transcript `"maybe"` all classify to the
unknown result `none`. -/
theorem parseYesNo_unknown_cases :
    parseYesNo none = none
    ∧ parseYesNo (some "") = none
    ∧ parseYesNo (some "maybe") = none := by
  refine ⟨rfl, by decide, by decide⟩

/-! ## Claims about the session sequencer -/

/-- Claim C5: from any topic-filtered pool and any requested count, the
drawn session id list (for any shuffle, i.e. any permutation of the
deduplicated pool ids) has no repeats, has length exactly
`min count (number of distinct pool ids)`, and contains only ids of the
pool. -/
theorem buildSession_draw_spec (selectedTopic : String) (items : List Item)
    (count : Nat) (shuffled : List Nat)
    (hperm : shuffled.Perm (uniqueIds (poolOf selectedTopic items))) :
    (sessionDraw shuffled count).Nodup
    ∧ (sessionDraw shuffled count).length
        = min count (((poolOf selectedTopic items).map Item.id).toFinset.card)
    ∧ ∀ a ∈ sessionDraw shuffled count, a ∈ (poolOf selectedTopic items).map Item.id := by
  have hnodup : shuffled.Nodup := hperm.symm.nodup (dedupFirst_nodup _)
  have hlen : shuffled.length = (((poolOf selectedTopic items).map Item.id).toFinset).card := by
    rw [hperm.length_eq]
    exact dedupFirst_length _
  refine ⟨(List.take_sublist _ _).nodup hnodup, ?_, ?_⟩
  · rw [sessionDraw, List.length_take, ← hlen]
    rcases Nat.le_total count shuffled.length with h | h <;> simp [Nat.min_def, h]
  · intro a ha
    have h1 : a ∈ shuffled := List.take_subset _ _ ha
    have h2 : a ∈ uniqueIds (poolOf selectedTopic items) := hperm.mem_iff.1 h1
    exact (mem_dedupFirst _ a).1 h2

/-- Witness for C5: the default pool under the `"All"` filter has the
five distinct ids 1..5; drawing with count 10 and the identity shuffle
yields all five, distinct and from the pool. -/
theorem buildSession_draw_spec_witness :
    (sessionDraw (uniqueIds (poolOf "All" defaultItems)) 10).Nodup
    ∧ (sessionDraw (uniqueIds (poolOf "All" defaultItems)) 10).length
        = min 10 (((poolOf "All" defaultItems).map Item.id).toFinset.card)
    ∧ ∀ a ∈ sessionDraw (uniqueIds (poolOf "All" defaultItems)) 10,
        a ∈ (poolOf "All" defaultItems).map Item.id :=
  buildSession_draw_spec "All" defaultItems 10 _ (List.Perm.refl _)

/-! ## Claims about the practice controller -/

/-- Claim C7: every invocation of `ask` — whatever render closure it
runs with and whatever the current state — resets the Answer Completion
Tracker to `{needsAffirmative := true, needsNegative := true}` (in the
source `{ yes: true, no: true }`) and enters the `practice` phase; the
reset happens in `resetNeeded()` before either branch starts
listening. -/
theorem ask_resets_tracker :
    ∀ (snap : Snap) (s : AppState),
      (askFn snap s).needed = ⟨true, true⟩ ∧ (askFn snap s).phase = Phase.practice := by
  intro snap s
  unfold askFn resetNeededFn armTimerFn startRecognitionFn clearRefTimer
  by_cases h : snap.useTTS <;> simp [h]

/-- Claim C1 (the code against the claim): in the run that toggles
speech output off, starts a question, and then receives a final
affirmative and a final negative transcript during `practice`, both
tracker flags do become false — but the phase is still `practice` and
the countdown callback is still pending: the armed countdown was not
cancelled and `reveal` was not invoked.  The `fastReveal` the
recognition handler calls closed over the mount render's
`phase = 'idle'` and returns without revealing. -/
theorem bothAnswered_no_early_reveal :
    (run [Event.toggleTTS false, Event.askClick,
          Event.result "yes" true, Event.result "no" true]).needed = ⟨false, false⟩
    ∧ (run [Event.toggleTTS false, Event.askClick,
            Event.result "yes" true, Event.result "no" true]).phase = Phase.practice
    ∧ (run [Event.toggleTTS false, Event.askClick,
            Event.result "yes" true, Event.result "no" true]).pendingTimers.length = 1 := by
  refine ⟨by decide, by decide, by decide⟩

/-- Counterexample for claim C2: after asking question 1 (speech output
off, so the countdown is armed at once) and then switching the topic
filter to `"Study"`, the current question has changed to id 3, yet the
countdown armed for question 1 is still pending — the topic-change
transition cancelled nothing — and firing it still runs `reveal`. -/
theorem staleTimer_fires_after_topic_change :
    (run [Event.toggleTTS false, Event.askClick,
          Event.topicChange "Study"]).pendingTimers.map armedQuestionId = [some 1]
    ∧ (currentOfState (run [Event.toggleTTS false, Event.askClick,
          Event.topicChange "Study"])).map Item.id = some 3
    ∧ (step (run [Event.toggleTTS false, Event.askClick, Event.topicChange "Study"])
          (Event.timerFire 0 [])).phase = Phase.reveal := by
  refine ⟨by decide, by decide, by decide⟩

/-- The countdown-timer discipline that does hold: at most one
`setTimeout(() => reveal(), …)` callback is ever pending, it is the
one whose handle `practiceTimerRef` holds, and handles are issued
increasingly (a cancelled handle is never re-armed). -/
def TimerInv (s : AppState) : Prop :=
  s.pendingTimers.length ≤ 1
  ∧ ∀ cb ∈ s.pendingTimers, s.timerRef = some cb.1 ∧ cb.1 < s.nextTimer

theorem fastRevealFn_idle (snap : Snap) (draws : List Nat) (s : AppState) :
    fastRevealFn Phase.idle snap draws s = s := by
  simp [fastRevealFn]

theorem goNextOpen_timers (snap : Snap) (draws : List Nat) (s : AppState) :
    (goNextOpen snap draws s).pendingTimers = s.pendingTimers
    ∧ (goNextOpen snap draws s).timerRef = s.timerRef
    ∧ (goNextOpen snap draws s).nextTimer = s.nextTimer := by
  dsimp only [goNextOpen, resetNeededFn]
  split
  · exact ⟨rfl, rfl, rfl⟩
  · split <;> exact ⟨rfl, rfl, rfl⟩

theorem goNextFn_timers (snap : Snap) (draws : List Nat) (s : AppState) :
    (goNextFn snap draws s).pendingTimers = s.pendingTimers
    ∧ (goNextFn snap draws s).timerRef = s.timerRef
    ∧ (goNextFn snap draws s).nextTimer = s.nextTimer := by
  unfold goNextFn
  rcases snap.sessionSet with _ | ids
  · exact goNextOpen_timers snap draws s
  · dsimp only
    by_cases hlen : ids.length ≠ 0
    · rw [if_pos hlen]
      by_cases hc : snap.sessionCursor + 1 < ids.length
      · rw [if_pos hc]; exact ⟨rfl, rfl, rfl⟩
      · rw [if_neg hc]; exact ⟨rfl, rfl, rfl⟩
    · rw [if_neg hlen]
      exact goNextOpen_timers snap draws s

theorem timerInv_clearRef {s : AppState} (h : TimerInv s) : TimerInv (clearRefTimer s) := by
  obtain ⟨hlen, hmem⟩ := h
  refine ⟨le_trans (List.length_filter_le _ _) hlen, ?_⟩
  intro cb hcb
  exact hmem cb (List.mem_of_mem_filter hcb)

theorem timerInv_arm {s : AppState} (snap : Snap) (h : TimerInv s) :
    TimerInv (armTimerFn snap s) := by
  obtain ⟨hlen, hmem⟩ := h
  have hfilter : s.pendingTimers.filter (fun cb => some cb.1 ≠ s.timerRef) = [] := by
    rcases hp : s.pendingTimers with _ | ⟨cb, rest⟩
    · rfl
    · rcases rest with _ | ⟨cb2, rest2⟩
      · have := (hmem cb (by simp [hp])).1
        simp [this]
      · rw [hp] at hlen; simp at hlen
  unfold armTimerFn clearRefTimer
  rw [hfilter]
  refine ⟨by simp, ?_⟩
  intro cb hcb
  simp at hcb
  simp [hcb]

theorem timerInv_reveal {s : AppState} (snap : Snap) (draws : List Nat)
    (h : TimerInv s) : TimerInv (revealFn snap draws s) := by
  obtain ⟨hlen, hmem⟩ := h
  unfold revealFn
  split
  · exact ⟨hlen, hmem⟩
  · obtain ⟨h1, h2, h3⟩ := goNextFn_timers snap draws
      { s with phase := Phase.reveal, listening := false }
    exact ⟨by rw [h1]; exact hlen, fun cb hcb => by
      rw [h1] at hcb; rw [h2, h3]; exact hmem cb hcb⟩

theorem timerInv_ask {s : AppState} (snap : Snap) (h : TimerInv s) :
    TimerInv (askFn snap s) := by
  unfold askFn
  split
  · exact ⟨h.1, h.2⟩
  · exact timerInv_arm snap ⟨h.1, h.2⟩

theorem onResultFn_timers (capturedSnap : Snap) (txt : String) (final : Bool)
    (s : AppState) :
    (onResultFn Phase.idle capturedSnap txt final s).pendingTimers = s.pendingTimers
    ∧ (onResultFn Phase.idle capturedSnap txt final s).timerRef = s.timerRef
    ∧ (onResultFn Phase.idle capturedSnap txt final s).nextTimer = s.nextTimer := by
  unfold onResultFn
  dsimp only
  simp only [fastRevealFn_idle, ite_self]
  split
  · split <;> exact ⟨rfl, rfl, rfl⟩
  · exact ⟨rfl, rfl, rfl⟩

theorem timerInv_step {s : AppState} (e : Event) (h : TimerInv s) :
    TimerInv (step s e) := by
  have hraw : TimerInv (rawStep s e) := by
    obtain ⟨hlen, hmem⟩ := h
    cases e with
    | askClick =>
      simp only [rawStep]
      split
      · exact timerInv_ask _ ⟨hlen, hmem⟩
      · exact ⟨hlen, hmem⟩
    | askTick =>
      simp only [rawStep]
      split
      · exact timerInv_ask _ ⟨hlen, hmem⟩
      · exact ⟨hlen, hmem⟩
    | ttsQuestionEnd =>
      simp only [rawStep]
      split
      · exact timerInv_arm _ ⟨hlen, hmem⟩
      · exact ⟨hlen, hmem⟩
    | recStart =>
      simp only [rawStep, startRecognitionFn]
      split <;> exact ⟨hlen, hmem⟩
    | result txt final =>
      simp only [rawStep]
      split
      · obtain ⟨h1, h2, h3⟩ := onResultFn_timers mountSnap txt final s
        exact ⟨by rw [h1]; exact hlen, fun cb hcb => by
          rw [h1] at hcb; rw [h2, h3]; exact hmem cb hcb⟩
      · exact ⟨hlen, hmem⟩
    | recEnd =>
      simp only [rawStep]
      split <;> exact ⟨hlen, hmem⟩
    | timerFire k draws =>
      simp only [rawStep]
      split
      · refine timerInv_reveal _ _ ⟨?_, ?_⟩
        · exact le_trans (List.length_filter_le _ _) hlen
        · intro cb hcb
          exact hmem cb (List.mem_of_mem_filter hcb)
      · exact ⟨hlen, hmem⟩
    | ttsRevealEnd draws =>
      simp only [rawStep]
      split
      · rename_i snap _
        obtain ⟨h1, h2, h3⟩ := goNextFn_timers snap draws { s with pendingRevealTts := none }
        exact ⟨by rw [h1]; exact hlen, fun cb hcb => by
          rw [h1] at hcb; rw [h2, h3]; exact hmem cb hcb⟩
      · exact ⟨hlen, hmem⟩
    | toggleTTS b => exact ⟨hlen, hmem⟩
    | toggleRandom b => exact ⟨hlen, hmem⟩
    | topicChange t => exact ⟨hlen, hmem⟩
    | startSession shuffled =>
      simp only [rawStep, buildSessionFn, resetNeededFn]
      split <;> exact ⟨hlen, hmem⟩
  unfold step
  dsimp only
  split
  · exact ⟨hraw.1, hraw.2⟩
  · exact hraw

/-- Claim C2 (amended): in every reachable state at most one countdown
callback is pending, namely the one whose handle `practiceTimerRef`
holds, and handles are issued freshly — `ask`'s two arming sites always
`clearTimeout` before `setTimeout`.  What the original claim adds is
false (see the counterexample): a topic change during practice advances
the current question without cancelling the pending countdown, so that
countdown can still fire against the new question. -/
theorem timer_discipline : ∀ evs : List Event, TimerInv (run evs) := by
  intro evs
  rw [run]
  have h : ∀ s, TimerInv s → TimerInv (evs.foldl step s) := by
    induction evs with
    | nil => exact fun s hs => hs
    | cons e rest ih => exact fun s hs => ih _ (timerInv_step e hs)
  exact h initState
    ⟨Nat.zero_le 1, fun cb hcb => absurd hcb (List.not_mem_nil cb)⟩

/-- Counterexample for claim C6: start a session over all topics, ask
its first question (timer armed with that render's closure), switch the
topic to `"Study"` (which clears the session but not the timer), start
a new one-question session, and let the old timer expire: its captured
`goNext` advances the old session's cursor, leaving the live session
`[3]` active with cursor 1 — not a valid index into `[3]`. -/
theorem session_cursor_out_of_range :
    (run [Event.toggleTTS false, Event.startSession [1, 2, 3, 4, 5], Event.askClick,
          Event.topicChange "Study", Event.startSession [3],
          Event.timerFire 0 []]).sessionSet = some [3]
    ∧ (run [Event.toggleTTS false, Event.startSession [1, 2, 3, 4, 5], Event.askClick,
            Event.topicChange "Study", Event.startSession [3],
            Event.timerFire 0 []]).sessionCursor = 1
    ∧ ¬ ((run [Event.toggleTTS false, Event.startSession [1, 2, 3, 4, 5], Event.askClick,
               Event.topicChange "Study", Event.startSession [3],
               Event.timerFire 0 []]).sessionCursor < ([3] : List Nat).length) := by
  refine ⟨by decide, by decide, by decide⟩

/-- Claim C6 (amended): the cursor is a valid index at session creation;
a `goNext` whose captured render matches the live state either keeps the
cursor valid or discards the session; and advancing past the last
position discards the session (`sessionSet` to "no session") and
returns the phase to `idle`.  The unrestricted invariant of the
original claim fails when a countdown armed before a session
rebuild fires `goNext` with its stale captured session (see the
counterexample). -/
theorem goNextOpen_session (snap : Snap) (draws : List Nat) (s : AppState) :
    (goNextOpen snap draws s).sessionSet = s.sessionSet
    ∧ (goNextOpen snap draws s).sessionCursor = s.sessionCursor := by
  dsimp only [goNextOpen, resetNeededFn]
  split
  · exact ⟨rfl, rfl⟩
  · split <;> exact ⟨rfl, rfl⟩

theorem session_cursor_discipline :
    (∀ (shuffled : List Nat) (count : Nat) (s : AppState) (ids : List Nat),
      (buildSessionFn shuffled count s).sessionSet = some ids → ids ≠ [] →
        (buildSessionFn shuffled count s).sessionCursor < ids.length)
    ∧ (∀ (draws : List Nat) (s : AppState) (ids : List Nat),
        (goNextFn (snapOf s) draws s).sessionSet = some ids → ids ≠ [] →
          (goNextFn (snapOf s) draws s).sessionCursor < ids.length)
    ∧ (∀ (draws : List Nat) (s : AppState) (ids : List Nat),
        s.sessionSet = some ids → ids ≠ [] → ids.length ≤ s.sessionCursor + 1 →
          (goNextFn (snapOf s) draws s).sessionSet = none
          ∧ (goNextFn (snapOf s) draws s).phase = Phase.idle) := by
  refine ⟨?_, ?_, ?_⟩
  · intro shuffled count s ids h hne
    unfold buildSessionFn resetNeededFn at h ⊢
    simp only at h ⊢
    rw [Option.some_inj] at h
    rw [← h] at hne
    exact List.length_pos.2 (h ▸ hne)
  · intro draws s ids h hne
    have hset : (snapOf s).sessionSet = s.sessionSet := rfl
    unfold goNextFn at h ⊢
    rcases hs : s.sessionSet with _ | ids0
    · rw [hset, hs] at h ⊢
      obtain ⟨h1, _⟩ := goNextOpen_session (snapOf s) draws s
      rw [h1, hs] at h
      cases h
    · rw [hset, hs] at h ⊢
      dsimp only at h ⊢
      by_cases hlen : ids0.length ≠ 0
      · rw [if_pos hlen] at h ⊢
        by_cases hc : (snapOf s).sessionCursor + 1 < ids0.length
        · rw [if_pos hc] at h ⊢
          unfold resetNeededFn at h ⊢
          simp only at h ⊢
          rw [Option.some_inj] at h
          rw [← h]
          exact hc
        · rw [if_neg hc] at h
          cases h
      · rw [if_neg hlen] at h ⊢
        obtain ⟨h1, _⟩ := goNextOpen_session (snapOf s) draws s
        rw [h1, hs] at h
        rw [Option.some_inj] at h
        simp only [not_not] at hlen
        rw [h] at hlen
        exact absurd (List.eq_nil_of_length_eq_zero hlen) hne
  · intro draws s ids h hne hpast
    unfold goNextFn
    have hset : (snapOf s).sessionSet = s.sessionSet := rfl
    rw [hset, h]
    dsimp only
    have hlen : ids.length ≠ 0 := fun h0 => hne (List.eq_nil_of_length_eq_zero h0)
    rw [if_pos hlen]
    have hcur : (snapOf s).sessionCursor = s.sessionCursor := rfl
    have hc : ¬ ((snapOf s).sessionCursor + 1 < ids.length) := by
      rw [hcur]; omega
    rw [if_neg hc]
    exact ⟨rfl, rfl⟩

/-! ## The JSON boundary (export / import)

`exportItems` (App.jsx lines 345-351) writes
`JSON.stringify(items, null, 2)`; the `ImportButton` handler (App.jsx
line 505) runs `JSON.parse` and replaces the item list when the result
is an array.  The host pair `JSON.parse` / `JSON.stringify` is modelled
below for the JSON fragment the application exchanges: numbers are
integers (the data model's only numbers are integer ids; fractions and
exponents are outside the model), strings are Unicode scalar sequences
(lone UTF-16 surrogates are not representable in `Char`). -/

/-- A JSON value as the application stores it: the item list is whatever
array the user imported, so items are arbitrary JSON values. -/
inductive Json where
  | null : Json
  | bool (b : Bool) : Json
  | num (n : Int) : Json
  | str (s : String) : Json
  | arr (elems : List Json) : Json
  | obj (fields : List (String × Json)) : Json

/-- Decimal digit character. -/
def digitCh : Nat → Char
  | 0 => '0' | 1 => '1' | 2 => '2' | 3 => '3' | 4 => '4'
  | 5 => '5' | 6 => '6' | 7 => '7' | 8 => '8' | _ => '9'

/-- Lower-case hexadecimal digit character. -/
def hexDigitCh : Nat → Char
  | 0 => '0' | 1 => '1' | 2 => '2' | 3 => '3' | 4 => '4'
  | 5 => '5' | 6 => '6' | 7 => '7' | 8 => '8' | 9 => '9'
  | 10 => 'a' | 11 => 'b' | 12 => 'c' | 13 => 'd' | 14 => 'e' | _ => 'f'

/-- The decimal digits of `n`, most significant first (`String(n)` for a
non-negative integer); `fuel ≥ n + 1` always suffices. -/
def printNatAux : Nat → Nat → List Char
  | 0, _ => []
  | fuel + 1, n =>
    if n < 10 then [digitCh n]
    else printNatAux fuel (n / 10) ++ [digitCh (n % 10)]

def printNat (n : Nat) : List Char := printNatAux (n + 1) n

/-- `String(n)` for an integer: decimal digits with an optional minus
sign (integer doubles inside the safe range print this way). -/
def printInt : Int → List Char
  | Int.ofNat n => printNat n
  | Int.negSucc m => '-' :: printNat (m + 1)

/-- How `JSON.stringify` escapes one character of a string: quote and
backslash, the named control escapes, `\u00..` for the remaining
control characters, and every other scalar as itself. -/
def escapeChar (c : Char) : List Char :=
  if c = '"' then ['\\', '"']
  else if c = '\\' then ['\\', '\\']
  else if c = Char.ofNat 8 then ['\\', 'b']
  else if c = '\t' then ['\\', 't']
  else if c = '\n' then ['\\', 'n']
  else if c = Char.ofNat 12 then ['\\', 'f']
  else if c = '\r' then ['\\', 'r']
  else if c.toNat < 32 then
    ['\\', 'u', '0', '0', hexDigitCh (c.toNat / 16), hexDigitCh (c.toNat % 16)]
  else [c]

/-- The escaped body of a JSON string literal. -/
def escFragment (s : List Char) : List Char := (s.map escapeChar).flatten

def spacesN (n : Nat) : List Char := List.replicate n ' '

mutual
/-- `JSON.stringify(v, null, 2)` at indentation depth `ind` (the
indentation the closing bracket of `v` gets). -/
def printV : Nat → Json → List Char
  | _, Json.null => ['n', 'u', 'l', 'l']
  | _, Json.bool true => ['t', 'r', 'u', 'e']
  | _, Json.bool false => ['f', 'a', 'l', 's', 'e']
  | _, Json.num n => printInt n
  | _, Json.str s => '"' :: (escFragment s.toList ++ ['"'])
  | _, Json.arr [] => ['[', ']']
  | ind, Json.arr (x :: xs) =>
    '[' :: '\n' :: (spacesN (ind + 2) ++ printV (ind + 2) x ++ printTailV (ind + 2) xs
      ++ '\n' :: (spacesN ind ++ [']']))
  | _, Json.obj [] => ['{', '}']
  | ind, Json.obj (f :: fs) =>
    '{' :: '\n' :: (spacesN (ind + 2) ++ printField (ind + 2) f ++ printTailF (ind + 2) fs
      ++ '\n' :: (spacesN ind ++ ['}']))

/-- One `"key": value` member. -/
def printField : Nat → String × Json → List Char
  | ind, (k, v) => '"' :: (escFragment k.toList ++ '"' :: ':' :: ' ' :: printV ind v)

/-- `,\n<indent><element>` for each further array element. -/
def printTailV : Nat → List Json → List Char
  | _, [] => []
  | ind, x :: xs => ',' :: '\n' :: (spacesN ind ++ printV ind x ++ printTailV ind xs)

/-- `,\n<indent><member>` for each further object member. -/
def printTailF : Nat → List (String × Json) → List Char
  | _, [] => []
  | ind, f :: fs => ',' :: '\n' :: (spacesN ind ++ printField ind f ++ printTailF ind fs)
end

/-- JSON whitespace (space, tab, line feed, carriage return — the same
set `isWsChar` describes). -/
def skipWs (s : List Char) : List Char := s.dropWhile isWsChar

/-- The value of one hexadecimal digit. -/
def hexVal (c : Char) : Option Nat :=
  if '0' ≤ c ∧ c ≤ '9' then some (c.toNat - 48)
  else if 'a' ≤ c ∧ c ≤ 'f' then some (c.toNat - 87)
  else if 'A' ≤ c ∧ c ≤ 'F' then some (c.toNat - 55)
  else none

/-- The named single-character escapes of JSON. -/
def unescapeCh (c : Char) : Option Char :=
  if c = '"' then some '"'
  else if c = '\\' then some '\\'
  else if c = '/' then some '/'
  else if c = 'b' then some (Char.ofNat 8)
  else if c = 'f' then some (Char.ofNat 12)
  else if c = 'n' then some '\n'
  else if c = 'r' then some '\r'
  else if c = 't' then some '\t'
  else none

/-- The body of a JSON string literal after its opening quote: the
decoded characters and the input after the closing quote.  A `\u`
escape outside the surrogate range decodes to its scalar (surrogate
pairs are outside the model). -/
def parseStringBody : List Char → Option (List Char × List Char)
  | [] => none
  | c :: rest =>
    if c = '"' then some ([], rest)
    else if c = '\\' then
      match rest with
      | [] => none
      | e :: rest2 =>
        if e = 'u' then
          match rest2 with
          | h1 :: h2 :: h3 :: h4 :: rest3 =>
            match hexVal h1, hexVal h2, hexVal h3, hexVal h4 with
            | some v1, some v2, some v3, some v4 =>
              let code := ((v1 * 16 + v2) * 16 + v3) * 16 + v4
              if code < 0xd800 then
                match parseStringBody rest3 with
                | some (cs, r) => some (Char.ofNat code :: cs, r)
                | none => none
              else none
            | _, _, _, _ => none
          | _ => none
        else
          match unescapeCh e with
          | some c2 =>
            match parseStringBody rest2 with
            | some (cs, r) => some (c2 :: cs, r)
            | none => none
          | none => none
    else
      match parseStringBody rest with
      | some (cs, r) => some (c :: cs, r)
      | none => none

/-- The digit run value: `digits` folded to a natural number. -/
def valDigits (ds : List Char) : Nat :=
  ds.foldl (fun a c => 10 * a + (c.toNat - 48)) 0

/-- An unsigned decimal numeral (JSON's integer numerals; fractions and
exponents are outside the model). -/
def parseNatNum (s : List Char) : Option (Nat × List Char) :=
  let ds := s.takeWhile Char.isDigit
  if ds = [] then none else some (valDigits ds, s.dropWhile Char.isDigit)

/-- A JSON integer numeral with optional minus sign. -/
def parseNumber (s : List Char) : Option (Int × List Char) :=
  if s.head? = some '-' then
    match parseNatNum s.tail with
    | some (n, r) => some (-(n : Int), r)
    | none => none
  else
    match parseNatNum s with
    | some (n, r) => some ((n : Int), r)
    | none => none

mutual
/-- One JSON value (`JSON.parse` restricted as stated above): leading
whitespace is skipped, the remainder of the input is returned.  `fuel`
bounds the recursion depth; the top level supplies enough for any
input it accepts. -/
def parseVal : Nat → List Char → Option (Json × List Char)
  | 0, _ => none
  | fuel + 1, s =>
    match skipWs s with
    | [] => none
    | c :: cs =>
      if c = 'n' then
        if cs.take 3 = ['u', 'l', 'l'] then some (Json.null, cs.drop 3) else none
      else if c = 't' then
        if cs.take 3 = ['r', 'u', 'e'] then some (Json.bool true, cs.drop 3) else none
      else if c = 'f' then
        if cs.take 4 = ['a', 'l', 's', 'e'] then some (Json.bool false, cs.drop 4) else none
      else if c = '"' then
        match parseStringBody cs with
        | some (chars, rest) => some (Json.str (String.mk chars), rest)
        | none => none
      else if c = '[' then
        let s1 := skipWs cs
        if s1.head? = some ']' then some (Json.arr [], s1.tail)
        else
          match parseElems fuel s1 with
          | some (vs, rest) => some (Json.arr vs, rest)
          | none => none
      else if c = Char.ofNat 123 then
        let s1 := skipWs cs
        if s1.head? = some (Char.ofNat 125) then some (Json.obj [], s1.tail)
        else
          match parseFields fuel s1 with
          | some (fs, rest) => some (Json.obj fs, rest)
          | none => none
      else
        match parseNumber (c :: cs) with
        | some (n, rest) => some (Json.num n, rest)
        | none => none

/-- `value (, value)* ]` — the elements of a non-empty array. -/
def parseElems : Nat → List Char → Option (List Json × List Char)
  | 0, _ => none
  | fuel + 1, s =>
    match parseVal fuel s with
    | some (v, rest) =>
      let r1 := skipWs rest
      if r1.head? = some ',' then
        match parseElems fuel r1.tail with
        | some (vs, rest3) => some (v :: vs, rest3)
        | none => none
      else if r1.head? = some ']' then some ([v], r1.tail)
      else none
    | none => none

/-- `"key" : value (, member)* with closing brace` — the members of a
non-empty object. -/
def parseFields : Nat → List Char → Option (List (String × Json) × List Char)
  | 0, _ => none
  | fuel + 1, s =>
    let s1 := skipWs s
    if s1.head? = some '"' then
      match parseStringBody s1.tail with
      | some (kchars, rest) =>
        let r1 := skipWs rest
        if r1.head? = some ':' then
          match parseVal fuel r1.tail with
          | some (v, rest3) =>
            let r2 := skipWs rest3
            if r2.head? = some ',' then
              match parseFields fuel r2.tail with
              | some (fs, rest5) => some ((String.mk kchars, v) :: fs, rest5)
              | none => none
            else if r2.head? = some (Char.ofNat 125) then
              some ([(String.mk kchars, v)], r2.tail)
            else none
          | none => none
        else none
      | none => none
    else none
end

/-- `JSON.parse(text)` for the modelled fragment: one value, then only
whitespace.  The fuel `length + 1` dominates the recursion depth of
anything the grammar accepts (each nesting level consumes at least one
character). -/
def parseJsonChars (s : List Char) : Option Json :=
  match parseVal (s.length + 1) s with
  | some (v, rest) => if skipWs rest = [] then some v else none
  | none => none

def parseJson (text : String) : Option Json := parseJsonChars text.toList

/-! ### Round-trip lemmas: whitespace and digits -/

/-- Every character of `l` is JSON whitespace. -/
def isWsOnly (l : List Char) : Bool := l.all isWsChar

/-- The input does not start with a digit (what the numeral parser needs
of the text following a printed number). -/
def noLeadDigit (s : List Char) : Bool :=
  match s with
  | [] => true
  | c :: _ => !c.isDigit

theorem skipWs_ws_append {ws : List Char} (h : isWsOnly ws = true) (s : List Char) :
    skipWs (ws ++ s) = skipWs s := by
  induction ws with
  | nil => rfl
  | cons c t ih =>
    rw [isWsOnly, List.all_cons, Bool.and_eq_true] at h
    rw [List.cons_append, skipWs, List.dropWhile_cons, if_pos h.1]
    exact ih (by rw [isWsOnly]; exact h.2)

theorem skipWs_cons_not {c : Char} (h : isWsChar c = false) (s : List Char) :
    skipWs (c :: s) = c :: s := by
  rw [skipWs, List.dropWhile_cons, h]
  simp

theorem isWsOnly_spaces (n : Nat) : isWsOnly (spacesN n) = true := by
  rw [isWsOnly, List.all_eq_true]
  intro c hc
  rw [spacesN, List.mem_replicate] at hc
  rw [hc.2]
  decide

theorem isWsOnly_newline_spaces (n : Nat) : isWsOnly ('\n' :: spacesN n) = true := by
  rw [isWsOnly, List.all_cons, Bool.and_eq_true]
  exact ⟨by decide, isWsOnly_spaces n⟩

theorem ws_not_digit {c : Char} (h : isWsChar c = true) : c.isDigit = false := by
  rw [isWsChar] at h
  rcases Bool.or_eq_true_iff.1 h with h1 | h1
  · rcases Bool.or_eq_true_iff.1 h1 with h2 | h2
    · rcases Bool.or_eq_true_iff.1 h2 with h3 | h3
      · rw [decide_eq_true_eq] at h3; rw [h3]; decide
      · rw [decide_eq_true_eq] at h3; rw [h3]; decide
    · rw [decide_eq_true_eq] at h2; rw [h2]; decide
  · rw [decide_eq_true_eq] at h1; rw [h1]; decide

theorem noLeadDigit_ws_close {ws : List Char} (h : isWsOnly ws = true)
    {c : Char} (hc : c.isDigit = false) (rest : List Char) :
    noLeadDigit (ws ++ c :: rest) = true := by
  cases ws with
  | nil => rw [List.nil_append, noLeadDigit, hc]; rfl
  | cons w t =>
    rw [isWsOnly, List.all_cons, Bool.and_eq_true] at h
    rw [List.cons_append, noLeadDigit, ws_not_digit h.1]
    rfl

theorem digitCh_isDigit (d : Nat) : (digitCh d).isDigit = true := by
  unfold digitCh
  split <;> decide

theorem digitCh_toNat {d : Nat} (h : d < 10) : (digitCh d).toNat - 48 = d := by
  interval_cases d <;> decide

theorem digit_not_ws {c : Char} (h : c.isDigit = true) : isWsChar c = false := by
  cases hw : isWsChar c
  · rfl
  · rw [ws_not_digit hw] at h
    cases h

theorem hexVal_hexDigitCh {d : Nat} (h : d < 16) : hexVal (hexDigitCh d) = some d := by
  interval_cases d <;> decide

/-! ### Round-trip lemmas: numerals -/

theorem printNatAux_digits :
    ∀ (fuel n : Nat), n < fuel →
      printNatAux fuel n ≠ [] ∧ ∀ c ∈ printNatAux fuel n, c.isDigit = true := by
  intro fuel
  induction fuel with
  | zero => intro n h; omega
  | succ f ih =>
    intro n h
    rw [printNatAux]
    by_cases h10 : n < 10
    · rw [if_pos h10]
      refine ⟨by simp, ?_⟩
      intro c hc
      rw [List.mem_singleton] at hc
      rw [hc]
      exact digitCh_isDigit n
    · rw [if_neg h10]
      have hrec : n / 10 < f := by omega
      obtain ⟨hne, hdig⟩ := ih (n / 10) hrec
      refine ⟨by simp [hne], ?_⟩
      intro c hc
      rcases List.mem_append.1 hc with h1 | h1
      · exact hdig c h1
      · rw [List.mem_singleton] at h1
        rw [h1]
        exact digitCh_isDigit _

theorem printNatAux_val :
    ∀ (fuel n a : Nat), n < fuel →
      (printNatAux fuel n).foldl (fun a c => 10 * a + (c.toNat - 48)) a
        = a * 10 ^ (printNatAux fuel n).length + n := by
  intro fuel
  induction fuel with
  | zero => intro n a h; omega
  | succ f ih =>
    intro n a h
    rw [printNatAux]
    by_cases h10 : n < 10
    · rw [if_pos h10]
      simp only [List.foldl_cons, List.foldl_nil, digitCh_toNat h10,
        List.length_singleton, pow_one]
      omega
    · rw [if_neg h10]
      have hrec : n / 10 < f := by omega
      rw [List.foldl_append, ih (n / 10) a hrec]
      have hmod : (digitCh (n % 10)).toNat - 48 = n % 10 := digitCh_toNat (by omega)
      rw [List.foldl_cons, List.foldl_nil, hmod, List.length_append]
      simp only [List.length_singleton, pow_succ]
      have := Nat.div_add_mod n 10
      ring_nf
      omega

theorem valDigits_printNat (n : Nat) : valDigits (printNat n) = n := by
  rw [valDigits, printNat, printNatAux_val (n + 1) n 0 (Nat.lt_succ_self n)]
  simp

theorem printNat_ne_nil (n : Nat) : printNat n ≠ [] :=
  (printNatAux_digits (n + 1) n (Nat.lt_succ_self n)).1

theorem printNat_digits (n : Nat) : ∀ c ∈ printNat n, c.isDigit = true :=
  (printNatAux_digits (n + 1) n (Nat.lt_succ_self n)).2

theorem digits_span {ds : List Char} (hds : ∀ c ∈ ds, c.isDigit = true)
    {rest : List Char} (hrest : noLeadDigit rest = true) :
    (ds ++ rest).takeWhile Char.isDigit = ds
    ∧ (ds ++ rest).dropWhile Char.isDigit = rest := by
  induction ds with
  | nil =>
    rw [List.nil_append]
    cases rest with
    | nil => exact ⟨rfl, rfl⟩
    | cons c t =>
      rw [noLeadDigit, Bool.not_eq_true'] at hrest
      rw [List.takeWhile_cons, List.dropWhile_cons, hrest]
      simp
  | cons d ds ih =>
    have hd : d.isDigit = true := hds d (List.mem_cons_self d ds)
    obtain ⟨h1, h2⟩ := ih (fun c hc => hds c (List.mem_cons_of_mem d hc))
    rw [List.cons_append, List.takeWhile_cons, List.dropWhile_cons, hd]
    simp only [if_true]
    exact ⟨by rw [h1], by rw [h2]⟩

theorem parseNatNum_print (n : Nat) {rest : List Char} (hrest : noLeadDigit rest = true) :
    parseNatNum (printNat n ++ rest) = some (n, rest) := by
  obtain ⟨h1, h2⟩ := digits_span (printNat_digits n) hrest
  rw [parseNatNum]
  simp only [h1, h2]
  rw [if_neg (printNat_ne_nil n), valDigits_printNat]

theorem printNat_cons (n : Nat) : ∃ d ds, printNat n = d :: ds ∧ d.isDigit = true := by
  rcases hp : printNat n with _ | ⟨d, ds⟩
  · exact absurd hp (printNat_ne_nil n)
  · exact ⟨d, ds, rfl, printNat_digits n d (by rw [hp]; exact List.mem_cons_self d ds)⟩

theorem digit_ne_minus {c : Char} (h : c.isDigit = true) : c ≠ '-' := by
  intro hc
  rw [hc] at h
  cases h

theorem parseNumber_print (n : Int) {rest : List Char} (hrest : noLeadDigit rest = true) :
    parseNumber (printInt n ++ rest) = some (n, rest) := by
  cases n with
  | ofNat m =>
    obtain ⟨d, ds, hp, hd⟩ := printNat_cons m
    rw [printInt, parseNumber, hp, List.cons_append, List.head?_cons]
    rw [if_neg (by simp [digit_ne_minus hd])]
    rw [← List.cons_append, ← hp, parseNatNum_print m hrest]
    rfl
  | negSucc m =>
    rw [printInt, parseNumber, List.cons_append, List.head?_cons, if_pos rfl]
    simp only [List.tail_cons]
    rw [parseNatNum_print (m + 1) hrest]
    rw [Int.negSucc_eq]
    norm_num

/-! ### Round-trip lemmas: string escaping -/

theorem escFragment_nil : escFragment [] = [] := rfl

theorem escFragment_cons (c : Char) (cs : List Char) :
    escFragment (c :: cs) = escapeChar c ++ escFragment cs := by
  rw [escFragment, List.map_cons, List.flatten_cons, escFragment]

theorem parseStringBody_quote (rest : List Char) :
    parseStringBody ('"' :: rest) = some ([], rest) := by
  rw [parseStringBody.eq_def]
  dsimp only
  rw [if_pos rfl]

theorem parseStringBody_plain {c : Char} (h1 : c ≠ '"') (h2 : c ≠ '\\')
    (tail : List Char) :
    parseStringBody (c :: tail)
      = match parseStringBody tail with
        | some (cs, r) => some (c :: cs, r)
        | none => none := by
  rw [parseStringBody.eq_def]
  dsimp only
  rw [if_neg h1, if_neg h2]

theorem parseStringBody_escaped {e c2 : Char} (he : e ≠ 'u')
    (hu : unescapeCh e = some c2) (tail : List Char) :
    parseStringBody ('\\' :: e :: tail)
      = match parseStringBody tail with
        | some (cs, r) => some (c2 :: cs, r)
        | none => none := by
  rw [parseStringBody.eq_def]
  dsimp only
  rw [if_neg (by decide : ¬ (('\\' : Char) = '"')), if_pos rfl, if_neg he, hu]

theorem parseStringBody_unicode (a b d e : Char) (tail : List Char) :
    parseStringBody ('\\' :: 'u' :: a :: b :: d :: e :: tail)
      = match hexVal a, hexVal b, hexVal d, hexVal e with
        | some v1, some v2, some v3, some v4 =>
          if ((v1 * 16 + v2) * 16 + v3) * 16 + v4 < 0xd800 then
            match parseStringBody tail with
            | some (cs, r) => some (Char.ofNat (((v1 * 16 + v2) * 16 + v3) * 16 + v4) :: cs, r)
            | none => none
          else none
        | _, _, _, _ => none := by
  rw [parseStringBody.eq_def]
  dsimp only
  rw [if_neg (by decide : ¬ (('\\' : Char) = '"')), if_pos rfl, if_pos rfl]

theorem parseStringBody_print :
    ∀ (s rest : List Char), parseStringBody (escFragment s ++ '"' :: rest) = some (s, rest) := by
  intro s
  induction s with
  | nil =>
    intro rest
    rw [escFragment_nil, List.nil_append, parseStringBody_quote]
  | cons c cs ih =>
    intro rest
    rw [escFragment_cons, List.append_assoc]
    by_cases h1 : c = '"'
    · subst h1
      rw [show escapeChar '"' = ['\\', '"'] by decide]
      rw [List.cons_append, List.cons_append, List.nil_append]
      rw [parseStringBody_escaped (by decide) (by decide : unescapeCh '"' = some '"')]
      rw [ih rest]
    · by_cases h2 : c = '\\'
      · subst h2
        rw [show escapeChar '\\' = ['\\', '\\'] by decide]
        rw [List.cons_append, List.cons_append, List.nil_append]
        rw [parseStringBody_escaped (by decide) (by decide : unescapeCh '\\' = some '\\')]
        rw [ih rest]
      · by_cases h3 : c = Char.ofNat 8
        · subst h3
          rw [show escapeChar (Char.ofNat 8) = ['\\', 'b'] by decide]
          rw [List.cons_append, List.cons_append, List.nil_append]
          rw [parseStringBody_escaped (by decide)
            (by decide : unescapeCh 'b' = some (Char.ofNat 8))]
          rw [ih rest]
        · by_cases h4 : c = '\t'
          · subst h4
            rw [show escapeChar '\t' = ['\\', 't'] by decide]
            rw [List.cons_append, List.cons_append, List.nil_append]
            rw [parseStringBody_escaped (by decide) (by decide : unescapeCh 't' = some '\t')]
            rw [ih rest]
          · by_cases h5 : c = '\n'
            · subst h5
              rw [show escapeChar '\n' = ['\\', 'n'] by decide]
              rw [List.cons_append, List.cons_append, List.nil_append]
              rw [parseStringBody_escaped (by decide) (by decide : unescapeCh 'n' = some '\n')]
              rw [ih rest]
            · by_cases h6 : c = Char.ofNat 12
              · subst h6
                rw [show escapeChar (Char.ofNat 12) = ['\\', 'f'] by decide]
                rw [List.cons_append, List.cons_append, List.nil_append]
                rw [parseStringBody_escaped (by decide)
                  (by decide : unescapeCh 'f' = some (Char.ofNat 12))]
                rw [ih rest]
              · by_cases h7 : c = '\r'
                · subst h7
                  rw [show escapeChar '\r' = ['\\', 'r'] by decide]
                  rw [List.cons_append, List.cons_append, List.nil_append]
                  rw [parseStringBody_escaped (by decide)
                    (by decide : unescapeCh 'r' = some '\r')]
                  rw [ih rest]
                · by_cases h8 : c.toNat < 32
                  · rw [escapeChar, if_neg h1, if_neg h2, if_neg h3, if_neg h4, if_neg h5,
                      if_neg h6, if_neg h7, if_pos h8]
                    rw [List.cons_append, List.cons_append, List.cons_append,
                      List.cons_append, List.cons_append, List.cons_append, List.nil_append]
                    rw [parseStringBody_unicode]
                    have hdiv : c.toNat / 16 < 16 := by omega
                    have hmod : c.toNat % 16 < 16 := by omega
                    rw [show hexVal '0' = some 0 by decide,
                      hexVal_hexDigitCh hdiv, hexVal_hexDigitCh hmod]
                    dsimp only
                    have hcode : ((0 * 16 + 0) * 16 + c.toNat / 16) * 16 + c.toNat % 16
                        = c.toNat := by omega
                    rw [hcode]
                    rw [if_pos (by omega : c.toNat < 0xd800)]
                    rw [ih rest, Char.ofNat_toNat]
                  · rw [escapeChar, if_neg h1, if_neg h2, if_neg h3, if_neg h4, if_neg h5,
                      if_neg h6, if_neg h7, if_neg h8]
                    rw [List.cons_append, List.nil_append]
                    rw [parseStringBody_plain h1 h2, ih rest]

/-! ### Round-trip: the main induction -/

mutual
/-- Parser fuel sufficient for a value: one unit per `parseVal` /
`parseElems` / `parseFields` call the printed form of the value causes. -/
def costV : Json → Nat
  | Json.null => 1
  | Json.bool _ => 1
  | Json.num _ => 1
  | Json.str _ => 1
  | Json.arr [] => 1
  | Json.arr (x :: xs) => 1 + costL (x :: xs)
  | Json.obj [] => 1
  | Json.obj (f :: fs) => 1 + costF (f :: fs)

def costL : List Json → Nat
  | [] => 0
  | x :: xs => 1 + costV x + costL xs

def costF : List (String × Json) → Nat
  | [] => 0
  | f :: fs => 1 + costV f.2 + costF fs
end

theorem costV_pos (v : Json) : 1 ≤ costV v := by
  cases v with
  | null => simp [costV]
  | bool b => simp [costV]
  | num n => simp [costV]
  | str s => simp [costV]
  | arr elems => cases elems <;> simp [costV]
  | obj fields => cases fields <;> simp [costV]

theorem skipWs_cons_ws {c : Char} (h : isWsChar c = true) (s : List Char) :
    skipWs (c :: s) = skipWs s := by
  rw [skipWs, List.dropWhile_cons, if_pos h]
  rfl

theorem digit_ne {c x : Char} (h : c.isDigit = true) (hx : x.isDigit = false) : c ≠ x := by
  intro hc
  subst hc
  rw [h] at hx
  cases hx

theorem printV_head (ind : Nat) (v : Json) :
    ∃ c t, printV ind v = c :: t ∧ isWsChar c = false ∧ c ≠ ']' := by
  cases v with
  | null => exact ⟨'n', _, by rw [printV], by decide, by decide⟩
  | bool b =>
    cases b with
    | true => exact ⟨'t', _, by rw [printV], by decide, by decide⟩
    | false => exact ⟨'f', _, by rw [printV], by decide, by decide⟩
  | num n =>
    cases n with
    | ofNat m =>
      obtain ⟨d, ds, hp, hd⟩ := printNat_cons m
      exact ⟨d, ds, by rw [printV, printInt, hp], digit_not_ws hd,
        digit_ne hd (by decide)⟩
    | negSucc m =>
      exact ⟨'-', _, by rw [printV, printInt], by decide, by decide⟩
  | str s => exact ⟨'"', _, by rw [printV], by decide, by decide⟩
  | arr elems =>
    cases elems with
    | nil => exact ⟨'[', _, by rw [printV], by decide, by decide⟩
    | cons x xs => exact ⟨'[', _, by rw [printV], by decide, by decide⟩
  | obj fields =>
    cases fields with
    | nil => exact ⟨Char.ofNat 123, _, by rw [printV], by decide, by decide⟩
    | cons f fs => exact ⟨Char.ofNat 123, _, by rw [printV], by decide, by decide⟩

theorem parseVal_ws (fuel : Nat) {ws : List Char} (h : isWsOnly ws = true) (s : List Char) :
    parseVal fuel (ws ++ s) = parseVal fuel s := by
  cases fuel with
  | zero => rfl
  | succ f =>
    rw [parseVal.eq_def]
    conv_rhs => rw [parseVal.eq_def]
    dsimp only
    rw [skipWs_ws_append h]

theorem parseVal_cons_ws (fuel : Nat) {c : Char} (h : isWsChar c = true) (s : List Char) :
    parseVal fuel (c :: s) = parseVal fuel s := by
  cases fuel with
  | zero => rfl
  | succ f =>
    rw [parseVal.eq_def]
    conv_rhs => rw [parseVal.eq_def]
    dsimp only
    rw [skipWs_cons_ws h]

theorem printField_head (ind : Nat) (f : String × Json) :
    ∃ t, printField ind f = '"' :: t := by
  obtain ⟨k, v⟩ := f
  exact ⟨_, by rw [printField]⟩

mutual
theorem parseVal_print : ∀ (v : Json) (fuel ind : Nat) (rest : List Char),
    costV v ≤ fuel → noLeadDigit rest = true →
    parseVal fuel (printV ind v ++ rest) = some (v, rest)
  | v, fuel, ind, rest, hcost, hrest => by
    cases fuel with
    | zero =>
      have := costV_pos v
      omega
    | succ f =>
      cases v with
      | null =>
        rw [printV]
        simp only [List.cons_append, List.nil_append]
        rw [parseVal.eq_def]
        dsimp only
        rw [skipWs_cons_not (by decide)]
        dsimp only
        rw [if_pos rfl]
        rw [if_pos (by simp : ('u' :: 'l' :: 'l' :: rest).take 3 = ['u', 'l', 'l'])]
        rw [show ('u' :: 'l' :: 'l' :: rest).drop 3 = rest by simp]
      | bool b =>
        cases b with
        | true =>
          rw [printV]
          simp only [List.cons_append, List.nil_append]
          rw [parseVal.eq_def]
          dsimp only
          rw [skipWs_cons_not (by decide)]
          dsimp only
          rw [if_neg (by decide), if_pos rfl]
          rw [if_pos (by simp : ('r' :: 'u' :: 'e' :: rest).take 3 = ['r', 'u', 'e'])]
          rw [show ('r' :: 'u' :: 'e' :: rest).drop 3 = rest by simp]
        | false =>
          rw [printV]
          simp only [List.cons_append, List.nil_append]
          rw [parseVal.eq_def]
          dsimp only
          rw [skipWs_cons_not (by decide)]
          dsimp only
          rw [if_neg (by decide), if_neg (by decide), if_pos rfl]
          rw [if_pos (by simp : ('a' :: 'l' :: 's' :: 'e' :: rest).take 4 = ['a', 'l', 's', 'e'])]
          rw [show ('a' :: 'l' :: 's' :: 'e' :: rest).drop 4 = rest by simp]
      | num n =>
        cases n with
        | ofNat m =>
          rw [printV, printInt]
          obtain ⟨d, ds, hp, hd⟩ := printNat_cons m
          rw [hp, List.cons_append]
          rw [parseVal.eq_def]
          dsimp only
          rw [skipWs_cons_not (digit_not_ws hd)]
          dsimp only
          rw [if_neg (digit_ne hd (by decide)), if_neg (digit_ne hd (by decide)),
            if_neg (digit_ne hd (by decide)), if_neg (digit_ne hd (by decide)),
            if_neg (digit_ne hd (by decide)), if_neg (digit_ne hd (by decide))]
          rw [← List.cons_append, ← hp]
          rw [show printNat m = printInt (Int.ofNat m) by rw [printInt]]
          rw [parseNumber_print (Int.ofNat m) hrest]
        | negSucc m =>
          rw [printV, printInt, List.cons_append]
          rw [parseVal.eq_def]
          dsimp only
          rw [skipWs_cons_not (by decide)]
          dsimp only
          rw [if_neg (by decide), if_neg (by decide), if_neg (by decide),
            if_neg (by decide), if_neg (by decide), if_neg (by decide)]
          rw [show ('-' :: (printNat (m + 1) ++ rest)) = printInt (Int.negSucc m) ++ rest by
            rw [printInt, List.cons_append]]
          rw [parseNumber_print (Int.negSucc m) hrest]
      | str s =>
        rw [printV]
        simp only [List.cons_append, List.nil_append, List.append_assoc]
        rw [parseVal.eq_def]
        dsimp only
        rw [skipWs_cons_not (by decide)]
        dsimp only
        rw [if_neg (by decide), if_neg (by decide), if_neg (by decide), if_pos rfl]
        rw [parseStringBody_print s.toList rest]
        rfl
      | arr elems =>
        cases elems with
        | nil =>
          rw [printV]
          simp only [List.cons_append, List.nil_append]
          rw [parseVal.eq_def]
          dsimp only
          rw [skipWs_cons_not (by decide)]
          dsimp only
          rw [if_neg (by decide), if_neg (by decide), if_neg (by decide),
            if_neg (by decide), if_pos rfl]
          rw [skipWs_cons_not (by decide)]
          rw [if_pos (by rw [List.head?_cons])]
          rw [List.tail_cons]
        | cons x xs =>
          rw [printV]
          simp only [List.cons_append, List.nil_append, List.append_assoc]
          rw [parseVal.eq_def]
          dsimp only
          rw [skipWs_cons_not (by decide)]
          dsimp only
          rw [if_neg (by decide), if_neg (by decide), if_neg (by decide),
            if_neg (by decide), if_pos rfl]
          rw [skipWs_cons_ws (by decide), skipWs_ws_append (isWsOnly_spaces (ind + 2))]
          obtain ⟨c0, t0, hx, hws0, hne0⟩ := printV_head (ind + 2) x
          have hskip : skipWs (printV (ind + 2) x
              ++ (printTailV (ind + 2) xs ++ '\n' :: (spacesN ind ++ ']' :: rest)))
              = printV (ind + 2) x
              ++ (printTailV (ind + 2) xs ++ '\n' :: (spacesN ind ++ ']' :: rest)) := by
            rw [hx, List.cons_append, skipWs_cons_not hws0]
          rw [hskip]
          have hhead : (printV (ind + 2) x
              ++ (printTailV (ind + 2) xs ++ '\n' :: (spacesN ind ++ ']' :: rest))).head?
              = some c0 := by
            rw [hx, List.cons_append, List.head?_cons]
          rw [if_neg (by
            rw [hhead]
            exact fun hcon => hne0 (Option.some.inj hcon))]
          have hcl : costL (x :: xs) ≤ f := by
            rw [costV] at hcost
            omega
          have helems := parseElems_print x xs f (ind + 2) [] ('\n' :: spacesN ind) rest
            hcl rfl (isWsOnly_newline_spaces ind)
          simp only [List.cons_append, List.nil_append, List.append_assoc] at helems
          rw [helems]
      | obj fields =>
        cases fields with
        | nil =>
          rw [printV]
          simp only [List.cons_append, List.nil_append]
          rw [parseVal.eq_def]
          dsimp only
          rw [skipWs_cons_not (by decide)]
          dsimp only
          rw [if_neg (by decide), if_neg (by decide), if_neg (by decide),
            if_neg (by decide), if_neg (by decide), if_pos rfl]
          rw [skipWs_cons_not (by decide)]
          rw [if_pos (by rw [List.head?_cons])]
          rw [List.tail_cons]
        | cons f0 fs =>
          rw [printV]
          simp only [List.cons_append, List.nil_append, List.append_assoc]
          rw [parseVal.eq_def]
          dsimp only
          rw [skipWs_cons_not (by decide)]
          dsimp only
          rw [if_neg (by decide), if_neg (by decide), if_neg (by decide),
            if_neg (by decide), if_neg (by decide), if_pos rfl]
          rw [skipWs_cons_ws (by decide), skipWs_ws_append (isWsOnly_spaces (ind + 2))]
          obtain ⟨t0, hpf⟩ := printField_head (ind + 2) f0
          have hskip : skipWs (printField (ind + 2) f0
              ++ (printTailF (ind + 2) fs ++ '\n' :: (spacesN ind ++ Char.ofNat 125 :: rest)))
              = printField (ind + 2) f0
              ++ (printTailF (ind + 2) fs ++ '\n' :: (spacesN ind ++ Char.ofNat 125 :: rest)) := by
            rw [hpf, List.cons_append, skipWs_cons_not (by decide)]
          rw [hskip]
          have hhead : (printField (ind + 2) f0
              ++ (printTailF (ind + 2) fs ++ '\n' :: (spacesN ind ++ Char.ofNat 125 :: rest))).head?
              = some '"' := by
            rw [hpf, List.cons_append, List.head?_cons]
          rw [if_neg (by
            rw [hhead]
            intro hcon
            exact absurd (Option.some.inj hcon) (by decide))]
          have hcf : costF (f0 :: fs) ≤ f := by
            rw [costV] at hcost
            omega
          have hfields := parseFields_print f0 fs f (ind + 2) [] ('\n' :: spacesN ind) rest
            hcf rfl (isWsOnly_newline_spaces ind)
          simp only [List.cons_append, List.nil_append, List.append_assoc] at hfields
          rw [hfields]
termination_by v _ _ _ _ _ => sizeOf v
decreasing_by all_goals (subst_vars; simp; try omega)

theorem parseElems_print : ∀ (x : Json) (xs : List Json) (fuel ind : Nat)
    (ws0 ws rest : List Char),
    costL (x :: xs) ≤ fuel → isWsOnly ws0 = true → isWsOnly ws = true →
    parseElems fuel (ws0 ++ (printV ind x ++ (printTailV ind xs ++ (ws ++ ']' :: rest))))
      = some (x :: xs, rest)
  | x, xs, fuel, ind, ws0, ws, rest, hcost, hws0, hws => by
    cases fuel with
    | zero =>
      rw [costL] at hcost
      omega
    | succ f =>
      rw [parseElems.eq_def]
      dsimp only
      rw [parseVal_ws f hws0]
      have hnl : noLeadDigit (printTailV ind xs ++ (ws ++ ']' :: rest)) = true := by
        cases xs with
        | nil =>
          rw [printTailV, List.nil_append]
          exact noLeadDigit_ws_close hws (by decide) rest
        | cons y ys =>
          rw [printTailV]
          simp only [List.cons_append]
          rw [noLeadDigit]
          decide
      have hcx : costV x ≤ f := by
        rw [costL] at hcost
        omega
      rw [parseVal_print x f ind _ hcx hnl]
      dsimp only
      cases xs with
      | nil =>
        rw [printTailV, List.nil_append]
        rw [skipWs_ws_append hws, skipWs_cons_not (by decide)]
        rw [if_neg (by
          rw [List.head?_cons]
          intro hcon
          exact absurd (Option.some.inj hcon) (by decide))]
        rw [if_pos (by rw [List.head?_cons])]
        rw [List.tail_cons]
      | cons y ys =>
        rw [printTailV]
        simp only [List.cons_append, List.append_assoc]
        rw [skipWs_cons_not (by decide)]
        rw [if_pos (by rw [List.head?_cons])]
        rw [List.tail_cons]
        have hcl2 : costL (y :: ys) ≤ f := by
          rw [costL] at hcost ⊢
          rw [costL] at hcost
          omega
        have hrec := parseElems_print y ys f ind ('\n' :: spacesN ind) ws rest
          hcl2 (isWsOnly_newline_spaces ind) hws
        simp only [List.cons_append, List.nil_append, List.append_assoc] at hrec
        rw [hrec]
termination_by x xs _ _ _ _ _ _ _ _ => sizeOf (x :: xs)
decreasing_by all_goals (subst_vars; simp; try omega)

theorem parseFields_print : ∀ (f : String × Json) (fs : List (String × Json))
    (fuel ind : Nat) (ws0 ws rest : List Char),
    costF (f :: fs) ≤ fuel → isWsOnly ws0 = true → isWsOnly ws = true →
    parseFields fuel
        (ws0 ++ (printField ind f
          ++ (printTailF ind fs ++ (ws ++ Char.ofNat 125 :: rest))))
      = some (f :: fs, rest)
  | ⟨k, v⟩, fs, fuel, ind, ws0, ws, rest, hcost, hws0, hws => by
    cases fuel with
    | zero =>
      rw [costF] at hcost
      omega
    | succ f =>
      rw [parseFields.eq_def]
      dsimp only
      rw [skipWs_ws_append hws0]
      have hpf : printField ind (k, v)
          = '"' :: (escFragment k.toList ++ '"' :: ':' :: ' ' :: printV ind v) := by
        rw [printField]
      rw [hpf]
      simp only [List.cons_append, List.append_assoc]
      rw [skipWs_cons_not (by decide)]
      rw [if_pos (by rw [List.head?_cons])]
      rw [List.tail_cons]
      rw [parseStringBody_print k.toList _]
      dsimp only
      rw [skipWs_cons_not (by decide)]
      rw [if_pos (by rw [List.head?_cons])]
      rw [List.tail_cons]
      rw [parseVal_cons_ws f (by decide)]
      have hnl3 : noLeadDigit (printTailF ind fs ++ (ws ++ Char.ofNat 125 :: rest)) = true := by
        cases fs with
        | nil =>
          rw [printTailF, List.nil_append]
          exact noLeadDigit_ws_close hws (by decide) rest
        | cons g gs =>
          rw [printTailF]
          simp only [List.cons_append]
          rw [noLeadDigit]
          decide
      have hcv : costV v ≤ f := by
        rw [costF] at hcost
        dsimp only at hcost
        omega
      rw [parseVal_print v f ind _ hcv hnl3]
      dsimp only
      cases fs with
      | nil =>
        rw [printTailF, List.nil_append]
        rw [skipWs_ws_append hws, skipWs_cons_not (by decide)]
        rw [if_neg (by
          rw [List.head?_cons]
          intro hcon
          exact absurd (Option.some.inj hcon) (by decide))]
        rw [if_pos (by rw [List.head?_cons])]
        rw [List.tail_cons]
        rfl
      | cons g gs =>
        rw [printTailF]
        simp only [List.cons_append, List.append_assoc]
        rw [skipWs_cons_not (by decide)]
        rw [if_pos (by rw [List.head?_cons])]
        rw [List.tail_cons]
        have hcf2 : costF (g :: gs) ≤ f := by
          rw [costF] at hcost
          omega
        have hrec := parseFields_print g gs f ind ('\n' :: spacesN ind) ws rest
          hcf2 (isWsOnly_newline_spaces ind) hws
        simp only [List.cons_append, List.nil_append, List.append_assoc] at hrec
        rw [hrec]
        rfl
termination_by f fs _ _ _ _ _ _ _ _ => sizeOf (f :: fs)
decreasing_by all_goals (subst_vars; simp; try omega)
end

theorem printField_len (ind : Nat) (f : String × Json) :
    (printV ind f.2).length + 4 ≤ (printField ind f).length := by
  obtain ⟨k, v⟩ := f
  rw [printField]
  simp only [List.length_cons, List.length_append]
  omega

mutual
theorem costV_le_print : ∀ (v : Json) (ind : Nat), costV v ≤ (printV ind v).length
  | v, ind => by
    cases v with
    | null => rw [costV, printV]; simp
    | bool b => cases b <;> (rw [costV, printV]; simp)
    | num n =>
      rw [costV]
      cases n with
      | ofNat m =>
        rw [printV, printInt]
        obtain ⟨d, ds, hp, _⟩ := printNat_cons m
        rw [hp]
        simp
      | negSucc m => rw [printV, printInt]; simp
    | str s => rw [costV, printV]; simp
    | arr elems =>
      cases elems with
      | nil => rw [costV, printV]; simp
      | cons x xs =>
        rw [costV, costL, printV]
        have h1 := costV_le_print x (ind + 2)
        have h2 := costL_le_printTail xs (ind + 2)
        simp only [List.length_cons, List.length_append]
        omega
    | obj fields =>
      cases fields with
      | nil => rw [costV, printV]; simp
      | cons f fs =>
        rw [costV, costF, printV]
        have h1 := costV_le_print f.2 (ind + 2)
        have h2 := costF_le_printTail fs (ind + 2)
        have h3 := printField_len (ind + 2) f
        simp only [List.length_cons, List.length_append]
        omega

theorem costL_le_printTail : ∀ (xs : List Json) (ind : Nat),
    costL xs ≤ (printTailV ind xs).length
  | [], ind => by rw [costL, printTailV]; simp
  | x :: xs, ind => by
    rw [costL, printTailV]
    have h1 := costV_le_print x ind
    have h2 := costL_le_printTail xs ind
    simp only [List.length_cons, List.length_append]
    omega

theorem costF_le_printTail : ∀ (fs : List (String × Json)) (ind : Nat),
    costF fs ≤ (printTailF ind fs).length
  | [], ind => by rw [costF, printTailF]; simp
  | f :: fs, ind => by
    rw [costF, printTailF]
    have h1 := costV_le_print f.2 ind
    have h2 := costF_le_printTail fs ind
    have h3 := printField_len ind f
    simp only [List.length_cons, List.length_append]
    omega
end

/-- `JSON.parse` recovers any value `JSON.stringify(·, null, 2)`
printed: the host pair's round trip on the modelled fragment. -/
theorem parseJsonChars_print (v : Json) : parseJsonChars (printV 0 v) = some v := by
  rw [parseJsonChars]
  have hfuel : costV v ≤ (printV 0 v).length + 1 :=
    le_trans (costV_le_print v 0) (Nat.le_succ _)
  have h := parseVal_print v ((printV 0 v).length + 1) 0 [] hfuel rfl
  rw [List.append_nil] at h
  rw [h]
  rfl

/-! ## The export / import boundary -/

/-- `exportItems` (App.jsx lines 345-351): the downloaded file holds
`JSON.stringify(items, null, 2)` — the item list is the top-level
array. -/
def exportText (items : List Json) : String :=
  String.mk (printV 0 (Json.arr items))

/-- The two alerts the import handler can raise (App.jsx line 505):
"not a JSON array" and "failed to read JSON". -/
inductive ImportAlert
  | notArray
  | badJson
deriving DecidableEq, Repr

/-- The `ImportButton` `onImport` handler (App.jsx line 505):
`try { const arr = JSON.parse(text); if (Array.isArray(arr)) setItems(arr);
else alert(…) } catch { alert(…) }` — the new item list and the alert, if
any. -/
def onImportText (current : List Json) (text : String) :
    List Json × Option ImportAlert :=
  match parseJson text with
  | some j =>
    match j with
    | Json.arr xs => (xs, none)
    | _ => (current, some ImportAlert.notArray)
  | none => (current, some ImportAlert.badJson)

/-- Claim C9: for every import input, if it parses to a JSON array the
item list is wholesale-replaced by that array with no alert; otherwise
— a parse failure or any non-array value — a user-visible alert is
raised and the existing item list is left unchanged. -/
theorem importHandler_atomic (current : List Json) (text : String) :
    (∀ xs, parseJson text = some (Json.arr xs) → onImportText current text = (xs, none))
    ∧ ((∀ xs, parseJson text ≠ some (Json.arr xs)) →
        (onImportText current text).1 = current
        ∧ (onImportText current text).2 ≠ none) := by
  constructor
  · intro xs h
    rw [onImportText, h]
  · intro h
    rw [onImportText]
    rcases hp : parseJson text with _ | j
    · exact ⟨rfl, by simp⟩
    · cases j with
      | arr xs => exact absurd hp (h xs)
      | null => exact ⟨rfl, by simp⟩
      | bool b => exact ⟨rfl, by simp⟩
      | num n => exact ⟨rfl, by simp⟩
      | str s => exact ⟨rfl, by simp⟩
      | obj fs => exact ⟨rfl, by simp⟩

/-- Claim C10: exporting any item list (pretty-printed JSON) and
importing the exported file reproduces the identical item list, for
any prior list — export then import is the identity. -/
theorem export_import_roundtrip (items current : List Json) :
    onImportText current (exportText items) = (items, none) := by
  have h : parseJson (exportText items) = some (Json.arr items) := by
    rw [parseJson, exportText]
    exact parseJsonChars_print (Json.arr items)
  rw [onImportText, h]

end YesNoTrainer
